import Mathlib

/-
Verification of the expiring key-value cache (generic typed layer over a
time-based eviction store, plus a numeric increment/decrement wrapper).

The thin generic wrapper and the numeric wrapper are translated from
`cache.go`.  The underlying time-based eviction engine (entry store,
liveness, conditional mutation policies, sweep, snapshot merge) is not part
of the repository's sources; it is modelled from the specification's
description of the engine (spec §4.1–§4.3), with time passed explicitly as
a natural-number timestamp and the snapshot codec treated as a black box
(a snapshot is the entry set itself).
-/

set_option autoImplicit false

namespace EMCache

/-- Sentinel duration: the item never expires (`NoExpiration = -1` in cache.go). -/
def NoExpiration : Int := -1

/-- Sentinel duration: use the cache's configured default (`DefaultExpiration = 0` in cache.go). -/
def DefaultExpiration : Int := 0

/-- An entry of the store: a value together with an optional absolute
expiration timestamp; `none` means the entry never expires. -/
structure Entry (T : Type) where
  value : T
  expiresAt : Option Nat
  deriving DecidableEq, Repr

/-- The cache: its configured default expiration and the entry mapping,
kept as an association list from key to entry. -/
structure GenericCache (T : Type) where
  defaultExpiration : Int
  entries : List (String × Entry T)
  deriving DecidableEq, Repr

variable {T : Type}

/-- Modelled from the spec: `resolveExpiration(requested)` — `NoExpiration`
yields no deadline; `DefaultExpiration` substitutes the cache's configured
default (itself possibly `NoExpiration`); any other duration yields
`now + requested`. -/
def resolveExpiration (dflt : Int) (now : Nat) (requested : Int) : Option Nat :=
  if requested = NoExpiration then none
  else if requested = DefaultExpiration then
    if dflt = NoExpiration then none else some (now + dflt.toNat)
  else some (now + requested.toNat)

/-- Modelled from the spec: an entry is live when it has no deadline or the
deadline has not passed (`now <= expiresAt`). -/
def isLive (e : Entry T) (now : Nat) : Bool :=
  match e.expiresAt with
  | none => true
  | some t => decide (now ≤ t)

/-- First entry stored under a key, ignoring liveness. -/
def lookupKey (k : String) : List (String × Entry T) → Option (Entry T)
  | [] => none
  | (k', e) :: rest => if k = k' then some e else lookupKey k rest

/-- Remove every entry stored under a key. -/
def removeKey (k : String) : List (String × Entry T) → List (String × Entry T)
  | [] => []
  | (k', e) :: rest => if k' = k then removeKey k rest else (k', e) :: removeKey k rest

/-- Keep exactly the entries that are live at `now` (the active-eviction scan). -/
def sweep (now : Nat) : List (String × Entry T) → List (String × Entry T)
  | [] => []
  | (k, e) :: rest => if isLive e now then (k, e) :: sweep now rest else sweep now rest

/-- Modelled from the spec: the entry for a key, only if present and live;
does not mutate the store. -/
def getEntry (c : GenericCache T) (now : Nat) (k : String) : Option (Entry T) :=
  match lookupKey k c.entries with
  | none => none
  | some e => if isLive e now then some e else none

/-- `Get` of cache.go: the value of a present-and-live entry, `none` otherwise. -/
def Get (c : GenericCache T) (now : Nat) (k : String) : Option T :=
  (getEntry c now k).map Entry.value

/-- Modelled from the spec: unconditional upsert — writes the entry with
its resolved expiration, replacing any prior entry under the key. -/
def SetWithExpireIn (c : GenericCache T) (now : Nat) (k : String) (v : T) (expireIn : Int) :
    GenericCache T :=
  { c with entries :=
      (k, ⟨v, resolveExpiration c.defaultExpiration now expireIn⟩) :: removeKey k c.entries }

/-- `Set` of cache.go: `SetWithExpireIn` with the `DefaultExpiration` sentinel. -/
def Set (c : GenericCache T) (now : Nat) (k : String) (v : T) : GenericCache T :=
  SetWithExpireIn c now k v DefaultExpiration

/-- Modelled from the spec: `Add` writes only if no live entry exists for the
key; an expired entry does not block it.  Returns the applied flag and the
resulting store. -/
def AddWithExpireIn (c : GenericCache T) (now : Nat) (k : String) (v : T) (expireIn : Int) :
    Bool × GenericCache T :=
  match getEntry c now k with
  | some _ => (false, c)
  | none => (true, SetWithExpireIn c now k v expireIn)

/-- `Add` of cache.go: `AddWithExpireIn` with the `DefaultExpiration` sentinel. -/
def Add (c : GenericCache T) (now : Nat) (k : String) (v : T) : Bool × GenericCache T :=
  AddWithExpireIn c now k v DefaultExpiration

/-- Modelled from the spec: `Replace` writes only if a live entry exists for
the key; otherwise it returns false and leaves the store unchanged. -/
def ReplaceWithExpireIn (c : GenericCache T) (now : Nat) (k : String) (v : T) (expireIn : Int) :
    Bool × GenericCache T :=
  match getEntry c now k with
  | some _ => (true, SetWithExpireIn c now k v expireIn)
  | none => (false, c)

/-- `Replace` of cache.go: `ReplaceWithExpireIn` with the `DefaultExpiration` sentinel. -/
def Replace (c : GenericCache T) (now : Nat) (k : String) (v : T) : Bool × GenericCache T :=
  ReplaceWithExpireIn c now k v DefaultExpiration

/-- `Delete` of cache.go: unconditional removal. -/
def Delete (c : GenericCache T) (k : String) : GenericCache T :=
  { c with entries := removeKey k c.entries }

/-- `DeleteExpired` of cache.go: remove every entry that is not live at `now`. -/
def DeleteExpired (c : GenericCache T) (now : Nat) : GenericCache T :=
  { c with entries := sweep now c.entries }

/-- `Flush` of cache.go: remove all entries. -/
def Flush (c : GenericCache T) : GenericCache T :=
  { c with entries := [] }

/-- Modelled from the spec: `dumpTo` serializes the full current entry set;
the codec is a black box, so the snapshot is the entry set itself. -/
def DumpTo (c : GenericCache T) : List (String × Entry T) :=
  c.entries

/-- Insert one snapshot entry, overwriting whatever the store held under its key. -/
def insertEntry (st : List (String × Entry T)) (p : String × Entry T) :
    List (String × Entry T) :=
  (p.1, p.2) :: removeKey p.1 st

/-- Modelled from the spec: `loadFrom` merges a previously dumped entry set
into the current store, overwriting any existing keys present in the snapshot. -/
def LoadFrom (c : GenericCache T) (snapshot : List (String × Entry T)) : GenericCache T :=
  { c with entries := snapshot.foldl insertEntry c.entries }

/-- `NumericCache.Increment` of cache.go, at the signed-integer instantiation:
read under the wrapper lock; absent-or-expired returns the zero value and
false without mutating; otherwise add the delta, write back with the plain
`Set` (default expiration) and return the new value with true. -/
def Increment (c : GenericCache Int) (now : Nat) (k : String) (delta : Int) :
    (Int × Bool) × GenericCache Int :=
  match Get c now k with
  | none => ((0, false), c)
  | some v => ((v + delta, true), Set c now k (v + delta))

/-- `NumericCache.Decrement` of cache.go: increment by the negated delta. -/
def Decrement (c : GenericCache Int) (now : Nat) (k : String) (delta : Int) :
    (Int × Bool) × GenericCache Int :=
  Increment c now k (-delta)

/-- Go unsigned addition at width `w`: wraps modulo `2 ^ w`. -/
def uaddW (w : Nat) (a b : Nat) : Nat :=
  (a + b) % 2 ^ w

/-- Go unsigned negation at width `w`: `-a` is `(2 ^ w - a) mod 2 ^ w`. -/
def unegW (w : Nat) (a : Nat) : Nat :=
  (2 ^ w - a % 2 ^ w) % 2 ^ w

/-- `NumericCache.Increment` of cache.go at an unsigned instantiation of
width `w`: `v += delta` is modular addition. -/
def IncrementU (w : Nat) (c : GenericCache Nat) (now : Nat) (k : String) (delta : Nat) :
    (Nat × Bool) × GenericCache Nat :=
  match Get c now k with
  | none => ((0, false), c)
  | some v => ((uaddW w v delta, true), Set c now k (uaddW w v delta))

/-- `NumericCache.Decrement` of cache.go at an unsigned instantiation of
width `w`: `-delta` is modular negation. -/
def DecrementU (w : Nat) (c : GenericCache Nat) (now : Nat) (k : String) (delta : Nat) :
    (Nat × Bool) × GenericCache Nat :=
  IncrementU w c now k (unegW w delta)

/-- Repeated `Increment` by one, modelling the serialized order the wrapper
lock imposes on concurrent increments. -/
def incrementIter (now : Nat) (k : String) : Nat → GenericCache Int → GenericCache Int
  | 0, c => c
  | n + 1, c => incrementIter now k n (Increment c now k 1).2

/-- The keys of an entry list, in order. -/
def keysOf (l : List (String × Entry T)) : List String :=
  l.map Prod.fst

/-- Key uniqueness of an entry list. -/
def keysNodup (l : List (String × Entry T)) : Prop :=
  (keysOf l).Nodup

instance (l : List (String × Entry T)) : Decidable (keysNodup l) :=
  inferInstanceAs (Decidable (keysOf l).Nodup)

/-- A value in the untyped underlying store: either a value of the cache's
type parameter `T` (as stored by the typed methods) or a value of some other
dynamic type. -/
inductive Dyn (T : Type) where
  | ofT : T → Dyn T
  | dynOther : Nat → Dyn T

/-- One call to a typed mutation method of `GenericCache[T]`, carrying the
time at which it runs. -/
inductive TypedOp (T : Type) where
  | setOp (now : Nat) (k : String) (v : T) (expireIn : Int)
  | addOp (now : Nat) (k : String) (v : T) (expireIn : Int)
  | replaceOp (now : Nat) (k : String) (v : T) (expireIn : Int)
  | deleteOp (k : String)
  | deleteExpiredOp (now : Nat)
  | flushOp

/-- Run one typed call against the untyped store: the value crosses the
boundary wrapped as `Dyn.ofT`, exactly as the typed methods of cache.go pass
their `T`-typed argument to the underlying store. -/
def applyOp (c : GenericCache (Dyn T)) : TypedOp T → GenericCache (Dyn T)
  | .setOp now k v ei => SetWithExpireIn c now k (Dyn.ofT v) ei
  | .addOp now k v ei => (AddWithExpireIn c now k (Dyn.ofT v) ei).2
  | .replaceOp now k v ei => (ReplaceWithExpireIn c now k (Dyn.ofT v) ei).2
  | .deleteOp k => Delete c k
  | .deleteExpiredOp now => DeleteExpired c now
  | .flushOp => Flush c

/-- Run a sequence of typed calls. -/
def applyOps (c : GenericCache (Dyn T)) : List (TypedOp T) → GenericCache (Dyn T)
  | [] => c
  | op :: rest => applyOps (applyOp c op) rest

/-- The type assertion `v.(T)` inside Get of cache.go: succeeds exactly on
values of dynamic type `T`. -/
def assertT : Dyn T → Option T
  | .ofT v => some v
  | .dynOther _ => none

/-- Get of cache.go including its type assertion: the outer `none` marks the
run-time panic of a failed assertion, `some none` an ordinary miss and
`some (some v)` an ordinary hit. -/
def GetAssert (c : GenericCache (Dyn T)) (now : Nat) (k : String) : Option (Option T) :=
  match Get c now k with
  | none => some none
  | some d =>
    match assertT d with
    | some v => some (some v)
    | none => none

/-- A fresh cache as built by `New` of cache.go: configured default, no entries. -/
def freshCache (T : Type) (dflt : Int) : GenericCache T :=
  ⟨dflt, []⟩

/-- Every value in the store has dynamic type `T`. -/
def wellTyped (c : GenericCache (Dyn T)) : Prop :=
  ∀ p ∈ c.entries, ∃ v, p.2.value = Dyn.ofT v

/-- Example store: "n" holds the signed value 10 and never expires. -/
def cExInt : GenericCache Int :=
  ⟨NoExpiration, [("n", ⟨10, none⟩)]⟩

/-- Example store: "k" holds the signed value 0 and never expires. -/
def cExZero : GenericCache Int :=
  ⟨NoExpiration, [("k", ⟨0, none⟩)]⟩

/-- Example store: "n" holds the unsigned value 0 and never expires. -/
def cExNat : GenericCache Nat :=
  ⟨NoExpiration, [("n", ⟨0, none⟩)]⟩

/-- Example store: "old" holds 7 but expired at time 3. -/
def cExpired : GenericCache Int :=
  ⟨NoExpiration, [("old", ⟨7, some 3⟩)]⟩

/-- Example store with one entry live at time 10 and one already expired. -/
def cExMixed : GenericCache Int :=
  ⟨NoExpiration, [("live", ⟨1, some 20⟩), ("dead", ⟨2, some 5⟩)]⟩

/-- Example snapshot: "n" bound to 99, expiring at 50. -/
def snapEx : List (String × Entry Int) :=
  [("n", ⟨99, some 50⟩)]

theorem lookupKey_removeKey (k k' : String) (l : List (String × Entry T)) :
    lookupKey k (removeKey k' l) = if k = k' then none else lookupKey k l := by
  induction l with
  | nil => simp [removeKey, lookupKey]
  | cons p t ih =>
    obtain ⟨a, e⟩ := p
    by_cases ha : a = k'
    · subst ha
      rw [removeKey, if_pos rfl, ih]
      by_cases hk : k = a
      · simp [hk]
      · simp [hk, lookupKey]
    · rw [removeKey, if_neg ha, lookupKey]
      by_cases hk : k = a
      · have hkk : ¬ k = k' := by rw [hk]; exact ha
        simp [hk, hkk, lookupKey, ha]
      · rw [if_neg hk, ih]
        simp [lookupKey, hk]

theorem isLive_resolveExpiration (dflt : Int) (now : Nat) (req : Int) (v : T) :
    isLive (⟨v, resolveExpiration dflt now req⟩ : Entry T) now = true := by
  unfold isLive resolveExpiration
  split_ifs <;> simp [Nat.le_add_right]

theorem Get_SetWithExpireIn_self (c : GenericCache T) (now : Nat) (k : String) (v : T)
    (ttl : Int) : Get (SetWithExpireIn c now k v ttl) now k = some v := by
  simp [Get, getEntry, SetWithExpireIn, lookupKey, isLive_resolveExpiration]

theorem Get_Set_self (c : GenericCache T) (now : Nat) (k : String) (v : T) :
    Get (Set c now k v) now k = some v :=
  Get_SetWithExpireIn_self c now k v DefaultExpiration

theorem lookupKey_mem {k : String} {e : Entry T} {l : List (String × Entry T)}
    (h : lookupKey k l = some e) : (k, e) ∈ l := by
  induction l with
  | nil => simp [lookupKey] at h
  | cons p t ih =>
    obtain ⟨a, e'⟩ := p
    by_cases hk : k = a
    · subst hk
      rw [lookupKey, if_pos rfl] at h
      injection h with he
      subst he
      exact List.mem_cons_self _ _
    · simp only [lookupKey, if_neg hk] at h
      exact List.mem_cons_of_mem _ (ih h)

theorem lookupKey_eq_none_iff (k : String) (l : List (String × Entry T)) :
    lookupKey k l = none ↔ k ∉ keysOf l := by
  induction l with
  | nil => simp [lookupKey, keysOf]
  | cons p t ih =>
    obtain ⟨a, e⟩ := p
    by_cases hk : k = a
    · subst hk
      simp [lookupKey, keysOf]
    · simp [lookupKey, hk, ih, keysOf]

theorem mem_sweep {p : String × Entry T} {now : Nat} {l : List (String × Entry T)}
    (h : p ∈ sweep now l) : p ∈ l := by
  induction l with
  | nil => simp [sweep] at h
  | cons q t ih =>
    obtain ⟨a, e⟩ := q
    simp only [sweep] at h
    by_cases hl : isLive e now
    · rw [if_pos hl] at h
      rcases List.mem_cons.mp h with h1 | h2
      · exact h1 ▸ List.mem_cons_self _ _
      · exact List.mem_cons_of_mem _ (ih h2)
    · rw [if_neg hl] at h
      exact List.mem_cons_of_mem _ (ih h)

theorem keysOf_sweep_subset {k : String} {now : Nat} {l : List (String × Entry T)}
    (h : k ∈ keysOf (sweep now l)) : k ∈ keysOf l := by
  simp only [keysOf, List.mem_map] at h ⊢
  obtain ⟨p, hp, hk⟩ := h
  exact ⟨p, mem_sweep hp, hk⟩

theorem lookupKey_sweep (now : Nat) (k : String) (l : List (String × Entry T))
    (h : keysNodup l) :
    lookupKey k (sweep now l) =
      (lookupKey k l).bind (fun e => if isLive e now then some e else none) := by
  induction l with
  | nil => simp [sweep, lookupKey]
  | cons p t ih =>
    obtain ⟨a, e⟩ := p
    have hnd : a ∉ keysOf t ∧ keysNodup t := by
      simpa [keysNodup, keysOf] using h
    by_cases hl : isLive e now
    · simp only [sweep, if_pos hl, lookupKey]
      by_cases hk : k = a
      · simp [hk, hl]
      · simp [hk, ih hnd.2]
    · simp only [sweep, if_neg hl, lookupKey]
      by_cases hk : k = a
      · subst hk
        have hnone : lookupKey k t = none := (lookupKey_eq_none_iff k t).mpr hnd.1
        have : lookupKey k (sweep now t) = none := by
          rw [lookupKey_eq_none_iff]
          exact fun hmem => hnd.1 (keysOf_sweep_subset hmem)
        simp [this, hl]
      · simp [hk, ih hnd.2]

theorem lookupKey_insertEntry (k : String) (st : List (String × Entry T))
    (p : String × Entry T) :
    lookupKey k (insertEntry st p) = if k = p.1 then some p.2 else lookupKey k st := by
  simp only [insertEntry, lookupKey, lookupKey_removeKey]
  by_cases hk : k = p.1 <;> simp [hk]

theorem lookupKey_foldl_notmem (k : String) (s : List (String × Entry T)) :
    ∀ st : List (String × Entry T), k ∉ keysOf s →
      lookupKey k (s.foldl insertEntry st) = lookupKey k st := by
  induction s with
  | nil => intro st _; rfl
  | cons p t ih =>
    intro st h
    have h' : k ≠ p.1 ∧ k ∉ keysOf t := by simpa [keysOf] using h
    rw [List.foldl_cons, ih _ h'.2, lookupKey_insertEntry, if_neg h'.1]

theorem lookupKey_foldl_mem (k : String) (e : Entry T) (s : List (String × Entry T)) :
    ∀ st : List (String × Entry T), keysNodup s → (k, e) ∈ s →
      lookupKey k (s.foldl insertEntry st) = some e := by
  induction s with
  | nil => intro st _ hmem; cases hmem
  | cons p t ih =>
    intro st hnd hmem
    have hnd' : p.1 ∉ keysOf t ∧ keysNodup t := by
      simpa [keysNodup, keysOf] using hnd
    rcases List.mem_cons.mp hmem with h1 | h2
    · have hk : p = (k, e) := h1.symm
      subst hk
      rw [List.foldl_cons, lookupKey_foldl_notmem _ _ _ hnd'.1, lookupKey_insertEntry,
        if_pos rfl]
    · rw [List.foldl_cons]
      exact ih _ hnd'.2 h2

theorem mem_removeKey {p : String × Entry T} {k : String} {l : List (String × Entry T)}
    (h : p ∈ removeKey k l) : p ∈ l := by
  induction l with
  | nil => simp [removeKey] at h
  | cons q t ih =>
    obtain ⟨a, e⟩ := q
    rw [removeKey] at h
    by_cases ha : a = k
    · rw [if_pos ha] at h
      exact List.mem_cons_of_mem _ (ih h)
    · rw [if_neg ha] at h
      rcases List.mem_cons.mp h with h1 | h2
      · exact h1 ▸ List.mem_cons_self _ _
      · exact List.mem_cons_of_mem _ (ih h2)

theorem getEntry_mem {c : GenericCache T} {now : Nat} {k : String} {e : Entry T}
    (h : getEntry c now k = some e) : (k, e) ∈ c.entries := by
  cases hl : lookupKey k c.entries with
  | none =>
    simp only [getEntry, hl] at h
    exact Option.noConfusion h
  | some e' =>
    simp only [getEntry, hl] at h
    by_cases hlive : isLive e' now
    · rw [if_pos hlive] at h
      injection h with he
      subst he
      exact lookupKey_mem hl
    · rw [if_neg hlive] at h
      cases h

theorem GetAssert_isSome_of_wellTyped {c : GenericCache (Dyn T)} (h : wellTyped c)
    (now : Nat) (k : String) : (GetAssert c now k).isSome = true := by
  cases hg : Get c now k with
  | none => simp [GetAssert, hg]
  | some d =>
    cases hge : getEntry c now k with
    | none => simp [Get, hge] at hg
    | some e =>
      have hd : e.value = d := by
        simpa [Get, hge] using hg
      obtain ⟨v, hv⟩ := h (k, e) (getEntry_mem hge)
      have ha : assertT d = some v := by rw [← hd, hv]; rfl
      simp [GetAssert, hg, ha]

theorem wellTyped_SetWithExpireIn {c : GenericCache (Dyn T)} (h : wellTyped c)
    (now : Nat) (k : String) (v : T) (ei : Int) :
    wellTyped (SetWithExpireIn c now k (Dyn.ofT v) ei) := by
  intro p hp
  simp only [SetWithExpireIn] at hp
  rcases List.mem_cons.mp hp with h1 | h2
  · exact ⟨v, by rw [h1]⟩
  · exact h p (mem_removeKey h2)

theorem wellTyped_applyOp {c : GenericCache (Dyn T)} (h : wellTyped c) (op : TypedOp T) :
    wellTyped (applyOp c op) := by
  cases op with
  | setOp now k v ei => exact wellTyped_SetWithExpireIn h now k v ei
  | addOp now k v ei =>
    rw [applyOp]
    unfold AddWithExpireIn
    cases hge : getEntry c now k with
    | some e0 => simp only [hge]; exact h
    | none => simp only [hge]; exact wellTyped_SetWithExpireIn h now k v ei
  | replaceOp now k v ei =>
    rw [applyOp]
    unfold ReplaceWithExpireIn
    cases hge : getEntry c now k with
    | some e0 => simp only [hge]; exact wellTyped_SetWithExpireIn h now k v ei
    | none => simp only [hge]; exact h
  | deleteOp k =>
    intro p hp
    simp only [applyOp, Delete] at hp
    exact h p (mem_removeKey hp)
  | deleteExpiredOp now =>
    intro p hp
    simp only [applyOp, DeleteExpired] at hp
    exact h p (mem_sweep hp)
  | flushOp =>
    intro p hp
    simp [applyOp, Flush] at hp

theorem wellTyped_applyOps : ∀ (ops : List (TypedOp T)) (c : GenericCache (Dyn T)),
    wellTyped c → wellTyped (applyOps c ops)
  | [], _, h => h
  | op :: rest, c, h => wellTyped_applyOps rest (applyOp c op) (wellTyped_applyOp h op)

theorem wellTyped_freshCache (dflt : Int) : wellTyped (freshCache (Dyn T) dflt) := by
  intro p hp
  simp [freshCache] at hp

theorem Get_incrementIter (now : Nat) (k : String) (n : Nat) :
    ∀ (c : GenericCache Int) (v : Int), Get c now k = some v →
      Get (incrementIter now k n c) now k = some (v + n) := by
  induction n with
  | zero => intro c v h; simpa using h
  | succ m ih =>
    intro c v h
    have hstep : (Increment c now k 1).2 = Set c now k (v + 1) := by
      simp [Increment, h]
    have h2 : Get (Increment c now k 1).2 now k = some (v + 1) := by
      rw [hstep]; exact Get_Set_self c now k (v + 1)
    have h3 := ih _ _ h2
    have harith : v + 1 + (m : Int) = v + ((m + 1 : Nat) : Int) := by push_cast; ring
    rw [incrementIter, h3, harith]

/-- C1: for every key and delta, if the cache holds no live entry for the
key, Increment returns the zero value with false and leaves the store
unmutated; if a live entry with value v exists, Increment returns
(v + delta, true) and writes v + delta back through the unconditional Set,
whose entry carries the expiration resolved from the DefaultExpiration
sentinel — resetting the entry's TTL to the cache's default. -/
theorem increment_spec (c : GenericCache Int) (now : Nat) (k : String) (d : Int) :
    (Get c now k = none → Increment c now k d = ((0, false), c)) ∧
    (∀ v, Get c now k = some v →
      Increment c now k d = ((v + d, true), Set c now k (v + d)) ∧
      lookupKey k (Increment c now k d).2.entries =
        some ⟨v + d, resolveExpiration c.defaultExpiration now DefaultExpiration⟩) := by
  constructor
  · intro h
    simp [Increment, h]
  · intro v h
    have h1 : Increment c now k d = ((v + d, true), Set c now k (v + d)) := by
      simp [Increment, h]
    refine ⟨h1, ?_⟩
    rw [h1]
    simp [Set, SetWithExpireIn, lookupKey]

/-- Witness for C1 at concrete stores: a hit at "n" and a miss at "missing". -/
theorem increment_spec_witness :
    Increment cExInt 0 "missing" 1 = ((0, false), cExInt) ∧
    Increment cExInt 0 "n" 5 = ((15, true), Set cExInt 0 "n" 15) := by
  refine ⟨(increment_spec cExInt 0 "missing" 1).1 (by decide), ?_⟩
  have h := ((increment_spec cExInt 0 "n" 5).2 10 (by decide)).1
  norm_num at h
  exact h

/-- C2: after LoadFrom of a dumped entry set, every key present in the
snapshot maps in the store to the snapshot's entry for that key, overwriting
whatever entry — live or not — the store already held for that key. -/
theorem loadFrom_overwrites (c : GenericCache T) (s : List (String × Entry T))
    (hnd : keysNodup s) (k : String) (e : Entry T) (hmem : (k, e) ∈ s) :
    lookupKey k (LoadFrom c s).entries = some e := by
  simp only [LoadFrom]
  exact lookupKey_foldl_mem k e s c.entries hnd hmem

/-- Witness for C2: the snapshot entry for "n" replaces the live entry the
store held for "n". -/
theorem loadFrom_overwrites_witness :
    lookupKey "n" (LoadFrom cExInt snapEx).entries = some ⟨99, some 50⟩ :=
  loadFrom_overwrites cExInt snapEx (by decide) "n" ⟨99, some 50⟩ (by decide)

/-- C3: Add writes and returns true exactly when no live entry exists for
the key — an expired entry does not block it — and the written value is
immediately readable; when a live entry exists it returns false and the
store is unchanged. -/
theorem add_spec (c : GenericCache T) (now : Nat) (k : String) (v : T) (ttl : Int) :
    ((AddWithExpireIn c now k v ttl).1 = true ↔ getEntry c now k = none) ∧
    (getEntry c now k = none →
      AddWithExpireIn c now k v ttl = (true, SetWithExpireIn c now k v ttl) ∧
      Get (AddWithExpireIn c now k v ttl).2 now k = some v) ∧
    (∀ e, getEntry c now k = some e → AddWithExpireIn c now k v ttl = (false, c)) ∧
    (∀ e, lookupKey k c.entries = some e → isLive e now = false →
      (AddWithExpireIn c now k v ttl).1 = true) := by
  refine ⟨?_, ?_, ?_, ?_⟩
  · cases hge : getEntry c now k <;> simp [AddWithExpireIn, hge]
  · intro h
    have h1 : AddWithExpireIn c now k v ttl = (true, SetWithExpireIn c now k v ttl) := by
      simp [AddWithExpireIn, h]
    exact ⟨h1, by rw [h1]; exact Get_SetWithExpireIn_self c now k v ttl⟩
  · intro e h
    simp [AddWithExpireIn, h]
  · intro e hl hlive
    have hge : getEntry c now k = none := by simp [getEntry, hl, hlive]
    simp [AddWithExpireIn, hge]

/-- Witness for C3: an expired entry does not block Add, a live one does. -/
theorem add_spec_witness :
    (AddWithExpireIn cExpired 10 "old" (42 : Int) 5).1 = true ∧
    AddWithExpireIn cExInt 0 "n" (1 : Int) 5 = (false, cExInt) := by
  constructor
  · exact (add_spec cExpired 10 "old" 42 5).2.2.2 ⟨7, some 3⟩ (by decide) (by decide)
  · exact (add_spec cExInt 0 "n" 1 5).2.2.1 ⟨10, none⟩ (by decide)

/-- C4: Replace succeeds and writes exactly when a live entry exists for the
key; when the key is absent or its entry is expired it returns false and
leaves the store unchanged, so on a fresh cache Replace fails and a
subsequent Get still misses. -/
theorem replace_spec (c : GenericCache T) (now : Nat) (k : String) (v : T) (ttl : Int) :
    ((ReplaceWithExpireIn c now k v ttl).1 = true ↔ ∃ e, getEntry c now k = some e) ∧
    (getEntry c now k = none → ReplaceWithExpireIn c now k v ttl = (false, c)) ∧
    (∀ e, lookupKey k c.entries = some e → isLive e now = false →
      ReplaceWithExpireIn c now k v ttl = (false, c)) ∧
    (∀ e, getEntry c now k = some e →
      ReplaceWithExpireIn c now k v ttl = (true, SetWithExpireIn c now k v ttl)) ∧
    (∀ dflt, ReplaceWithExpireIn (freshCache T dflt) now k v ttl = (false, freshCache T dflt) ∧
      Get (ReplaceWithExpireIn (freshCache T dflt) now k v ttl).2 now k = none) := by
  refine ⟨?_, ?_, ?_, ?_, ?_⟩
  · cases hge : getEntry c now k <;> simp [ReplaceWithExpireIn, hge]
  · intro h
    simp [ReplaceWithExpireIn, h]
  · intro e hl hlive
    have hge : getEntry c now k = none := by simp [getEntry, hl, hlive]
    simp [ReplaceWithExpireIn, hge]
  · intro e h
    simp [ReplaceWithExpireIn, h]
  · intro dflt
    have hge : getEntry (freshCache T dflt) now k = none := rfl
    have h1 : ReplaceWithExpireIn (freshCache T dflt) now k v ttl =
        (false, freshCache T dflt) := by
      simp [ReplaceWithExpireIn, hge]
    exact ⟨h1, by rw [h1]; simp [Get, hge]⟩

/-- Witness for C4: Replace fails on a fresh cache and on an expired entry,
succeeds on a live one. -/
theorem replace_spec_witness :
    ReplaceWithExpireIn (freshCache Int 7) 0 "k" (5 : Int) 9 = (false, freshCache Int 7) ∧
    ReplaceWithExpireIn cExpired 10 "old" (5 : Int) 9 = (false, cExpired) ∧
    ReplaceWithExpireIn cExInt 0 "n" (5 : Int) 9 =
      (true, SetWithExpireIn cExInt 0 "n" 5 9) := by
  refine ⟨((replace_spec (freshCache Int 7) 0 "k" 5 9).2.2.2.2 7).1, ?_, ?_⟩
  · exact (replace_spec cExpired 10 "old" 5 9).2.2.1 ⟨7, some 3⟩ (by decide) (by decide)
  · exact (replace_spec cExInt 0 "n" 5 9).2.2.2.1 ⟨10, none⟩ (by decide)

/-- C5: DeleteExpired removes exactly the entries that are not live at the
time of the call: afterwards an expired entry is absent, a live entry is
still present with its value and expiration unchanged, and every Get result
is preserved. -/
theorem deleteExpired_spec (c : GenericCache T) (now : Nat) (hnd : keysNodup c.entries)
    (k : String) :
    lookupKey k (DeleteExpired c now).entries =
      (lookupKey k c.entries).bind (fun e => if isLive e now then some e else none) ∧
    Get (DeleteExpired c now) now k = Get c now k := by
  have h1 : lookupKey k (DeleteExpired c now).entries =
      (lookupKey k c.entries).bind (fun e => if isLive e now then some e else none) := by
    simp only [DeleteExpired]
    exact lookupKey_sweep now k c.entries hnd
  refine ⟨h1, ?_⟩
  simp only [Get, getEntry]
  rw [h1]
  cases hl : lookupKey k c.entries with
  | none => rfl
  | some e =>
    by_cases hlive : isLive e now
    · simp [hlive]
    · simp [hlive]

/-- Witness for C5 on a store with one live and one expired entry at time 10. -/
theorem deleteExpired_spec_witness :
    lookupKey "dead" (DeleteExpired cExMixed 10).entries = none ∧
    lookupKey "live" (DeleteExpired cExMixed 10).entries = some ⟨1, some 20⟩ ∧
    Get (DeleteExpired cExMixed 10) 10 "live" = Get cExMixed 10 "live" := by
  refine ⟨?_, ?_, (deleteExpired_spec cExMixed 10 (by decide) "live").2⟩
  · have h := (deleteExpired_spec cExMixed 10 (by decide) "dead").1
    rw [h]
    decide
  · have h := (deleteExpired_spec cExMixed 10 (by decide) "live").1
    rw [h]
    decide

/-- C6: Decrement returns exactly the same pair and produces exactly the
same store as Increment with the negated delta, for every cache state. -/
theorem decrement_eq_increment_neg (c : GenericCache Int) (now : Nat) (k : String)
    (d : Int) : Decrement c now k d = Increment c now k (-d) := rfl

/-- C7: dumping a cache populated with live entries and loading the snapshot
into a fresh cache of the same type parameter reproduces every Get result of
the source cache. -/
theorem roundTrip_spec (c : GenericCache T) (dflt : Int) (now : Nat)
    (hnd : keysNodup c.entries)
    (_hlive : ∀ p ∈ c.entries, isLive p.2 now = true) (k : String) :
    Get (LoadFrom (freshCache T dflt) (DumpTo c)) now k = Get c now k := by
  have hlk : lookupKey k (LoadFrom (freshCache T dflt) (DumpTo c)).entries =
      lookupKey k c.entries := by
    cases hl : lookupKey k c.entries with
    | none =>
      have hnot : k ∉ keysOf c.entries := (lookupKey_eq_none_iff k c.entries).mp hl
      simp only [LoadFrom, DumpTo, freshCache]
      rw [lookupKey_foldl_notmem k c.entries [] hnot]
      rfl
    | some e =>
      simp only [LoadFrom, DumpTo, freshCache]
      exact lookupKey_foldl_mem k e c.entries [] hnd (lookupKey_mem hl)
  simp only [Get, getEntry]
  rw [hlk]

/-- Witness for C7: round-trip of a two-entry live store at time 0. -/
theorem roundTrip_spec_witness :
    Get (LoadFrom (freshCache Int 3) (DumpTo cExInt)) 0 "n" = Get cExInt 0 "n" ∧
    Get (LoadFrom (freshCache Int 3) (DumpTo cExInt)) 0 "missing" =
      Get cExInt 0 "missing" :=
  ⟨roundTrip_spec cExInt 3 0 (by decide) (by decide) "n",
   roundTrip_spec cExInt 3 0 (by decide) (by decide) "missing"⟩

/-- C8: N concurrent Increment(k, 1) calls, serialized by the wrapper's
exclusive lock into a sequence of atomic read-add-write steps, starting from
a key live at value 0 that does not expire during the run, leave the key at
value exactly N. -/
theorem concurrent_increments_spec (c : GenericCache Int) (now : Nat) (k : String)
    (N : Nat) (h : Get c now k = some 0) :
    Get (incrementIter now k N c) now k = some (N : Int) := by
  have h1 := Get_incrementIter now k N c 0 h
  simpa using h1

/-- Witness for C8: three serialized increments starting from 0 end at 3. -/
theorem concurrent_increments_witness :
    Get (incrementIter 0 "k" 3 cExZero) 0 "k" = some (3 : Int) :=
  concurrent_increments_spec cExZero 0 "k" 3 (by decide)

/-- C9: a GenericCache used only through its typed methods stores only
values of dynamic type T, so the type assertion inside Get always succeeds:
Get is total and never panics, for every operation sequence, time and key. -/
theorem get_never_panics (dflt : Int) (ops : List (TypedOp T)) (now : Nat) (k : String) :
    (GetAssert (applyOps (freshCache (Dyn T) dflt) ops) now k).isSome = true :=
  GetAssert_isSome_of_wellTyped
    (wellTyped_applyOps ops (freshCache (Dyn T) dflt) (wellTyped_freshCache dflt)) now k

/-- C10: at an unsigned instantiation of width w the wrapper's arithmetic is
modular: Increment stores (v + d) mod 2^w, Decrement negates the delta as
(2^w − d) mod 2^w before adding — so decrementing below zero wraps around —
and the call reports success, never an overflow, whenever the key is live. -/
theorem unsigned_wraparound_spec (w : Nat) (c : GenericCache Nat) (now : Nat)
    (k : String) (d v : Nat) (h : Get c now k = some v) :
    IncrementU w c now k d = (((v + d) % 2 ^ w, true), Set c now k ((v + d) % 2 ^ w)) ∧
    DecrementU w c now k d = IncrementU w c now k ((2 ^ w - d % 2 ^ w) % 2 ^ w) ∧
    (DecrementU w c now k d).1 = ((v + (2 ^ w - d % 2 ^ w)) % 2 ^ w, true) := by
  refine ⟨by simp [IncrementU, h, uaddW], rfl, ?_⟩
  simp [DecrementU, IncrementU, h, uaddW, unegW, Nat.add_mod]

/-- Witness for C10 at width 8: incrementing 0 by 300 stores 44 and
decrementing 0 by 1 wraps to 255. -/
theorem unsigned_wraparound_witness :
    IncrementU 8 cExNat 0 "n" 300 = ((44, true), Set cExNat 0 "n" 44) ∧
    (DecrementU 8 cExNat 0 "n" 1).1 = (255, true) := by
  constructor
  · have h := (unsigned_wraparound_spec 8 cExNat 0 "n" 300 0 (by decide)).1
    norm_num at h
    exact h
  · have h := (unsigned_wraparound_spec 8 cExNat 0 "n" 1 0 (by decide)).2.2
    norm_num at h
    exact h

end EMCache
